import Mathlib

/-!
# Verification of the trade-review analytic core

Shallow embedding of the deterministic analytic core of the trade-review
system: the market-context analyzer (`calculate_trend`,
`calculate_volatility`, level clustering), the trade evaluator
(`evaluate_entry_quality`, `calculate_risk_reward`) and the aggregators
(`calculate_performance_metrics`, `calculate_additional_metrics`).
Prices and P&L are modelled as rationals; `Option` marks absent fields and
Python exceptions.
-/

namespace TradeReview

/-- OHLCV candlestick record (`models.OHLCV`); timestamps abstracted to `ℕ`. -/
structure OHLCV where
  timestamp : ℕ
  open_price : ℚ
  high : ℚ
  low : ℚ
  close : ℚ
  volume : ℚ
deriving DecidableEq, Inhabited, Repr

/-- Trade side (`Literal["buy", "sell"]`). -/
inductive Side where
  | buy
  | sell
deriving DecidableEq, Repr

/-- Individual trade record (`models.Trade`); optional fields are `Option`. -/
structure Trade where
  trade_id : String
  timestamp : ℕ
  symbol : String
  side : Side
  entry_price : ℚ
  exit_price : Option ℚ := none
  exit_timestamp : Option ℕ := none
  quantity : ℚ := 1
  stop_loss : Option ℚ := none
  take_profit : Option ℚ := none
  pnl : Option ℚ := none
  notes : Option String := none
deriving DecidableEq, Repr

/-- Market context snapshot (`models.MarketContext`). -/
structure MarketContext where
  symbol : String
  start_date : ℕ
  end_date : ℕ
  trend : String
  trend_strength : ℚ
  volatility : ℚ
  support_levels : List ℚ
  resistance_levels : List ℚ
  average_volume : ℚ
deriving DecidableEq, Repr

/-- Arithmetic mean of a list of rationals (`np.mean`); `0` on `[]`
    (the code never takes a mean of an empty list on the analysed paths). -/
def qmean (l : List ℚ) : ℚ := l.sum / l.length

/-- Mean of the x-values `0, 1, ..., n-1`. -/
def xbar (n : ℕ) : ℚ := ((n : ℚ) - 1) / 2

/-- Centered second moment of the x-values `0, ..., n-1`. -/
def sxx (n : ℕ) : ℚ := ∑ i ∈ Finset.range n, ((i : ℚ) - xbar n) ^ 2

/-- Centered cross moment of the x-values with the closes. -/
def sxy (closes : List ℚ) : ℚ :=
  ∑ i ∈ Finset.range closes.length,
    ((i : ℚ) - xbar closes.length) * (closes.getD i 0 - qmean closes)

/-- The degree-1 coefficient returned by `np.polyfit(x, closes, 1)` for
    `x = 0, ..., n-1`: the ordinary-least-squares slope
    `Σ(xᵢ-x̄)(yᵢ-ȳ) / Σ(xᵢ-x̄)²`. -/
def olsSlope (closes : List ℚ) : ℚ := sxy closes / sxx closes.length

/-- `ss_res` of `MarketAnalyzer.calculate_trend`: residuals are measured
    against the line `slope·x + mean(closes)` (the code's formula, which uses
    `mean(closes)` in place of the fitted intercept). -/
def ss_res (closes : List ℚ) : ℚ :=
  ∑ i ∈ Finset.range closes.length,
    (closes.getD i 0 - (olsSlope closes * i + qmean closes)) ^ 2

/-- `ss_tot` of `MarketAnalyzer.calculate_trend`: total sum of squares. -/
def ss_tot (closes : List ℚ) : ℚ :=
  ∑ i ∈ Finset.range closes.length, (closes.getD i 0 - qmean closes) ^ 2

/-- Core of `MarketAnalyzer.calculate_trend`, expressed on the list of
    closing prices. Mirrors the Python statement for statement:
    slope from `np.polyfit`, the quirk R², the `avg_price > 0` guard,
    the ±0.001 thresholds and the clamp of the strength to `[0, 1]`. -/
def trendOfCloses (closes : List ℚ) : String × ℚ :=
  if closes.length < 2 then ("neutral", 0)
  else
    let slope := olsSlope closes
    let r_squared : ℚ :=
      if ss_tot closes > 0 then 1 - ss_res closes / ss_tot closes else 0
    let avg_price := qmean closes
    let normalized_slope : ℚ := if avg_price > 0 then slope / avg_price else 0
    let trend :=
      if normalized_slope > 1 / 1000 then "bullish"
      else if normalized_slope < -(1 / 1000) then "bearish"
      else "neutral"
    (trend, max 0 (min 1 r_squared))

/-- `MarketAnalyzer.calculate_trend`. -/
def calculate_trend (ohlcv_data : List OHLCV) : String × ℚ :=
  trendOfCloses (ohlcv_data.map OHLCV.close)

/-- True range of a candle given the previous candle's close. -/
def trueRange (prev cur : OHLCV) : ℚ :=
  max (cur.high - cur.low) (max |cur.high - prev.close| |cur.low - prev.close|)

/-- `MarketAnalyzer.calculate_volatility`: mean true range over the window. -/
def calculate_volatility (ohlcv_data : List OHLCV) : ℚ :=
  if ohlcv_data.length < 2 then 0
  else
    let true_ranges := List.zipWith trueRange ohlcv_data ohlcv_data.tail
    if true_ranges = [] then 0 else qmean true_ranges

/-- Ascending sort (Python `sorted`). -/
def sortAsc (l : List ℚ) : List ℚ := l.insertionSort (· ≤ ·)

/-- The loop of `MarketAnalyzer._cluster_levels`. `curr` holds the current
    cluster in reverse order, so `curr.headD 0` is `current_cluster[-1]`,
    the element most recently appended; `acc` holds the finished cluster
    means. The merge test divides by `current_cluster[-1]`, so Python
    raises `ZeroDivisionError` when that element is 0; `none` models that
    exception. The trailing `if current_cluster:` of the Python code is
    always true (the current cluster is never empty), so a completed walk
    always appends one last mean. -/
def clusterLoop : List ℚ → List ℚ → List ℚ → Option (List ℚ)
  | [], curr, acc => some (acc ++ [qmean curr])
  | l :: rest, curr, acc =>
    if curr.headD 0 = 0 then none
    else if |l - curr.headD 0| / curr.headD 0 < 1 / 100 then
      clusterLoop rest (l :: curr) acc
    else
      clusterLoop rest [l] (acc ++ [qmean curr])

/-- `MarketAnalyzer._cluster_levels`; `none` models the
    `ZeroDivisionError` the loop raises when the current cluster's last
    element is 0. -/
def cluster_levels (levels : List ℚ) (num_clusters : ℕ) : Option (List ℚ) :=
  if levels = [] then some []
  else
    let s := sortAsc levels
    if s.length ≤ num_clusters then some s
    else
      match s with
      | [] => some []
      | h :: t =>
        (clusterLoop t [h] []).map fun cs => (sortAsc cs).take num_clusters

/-- Proximity scan `any(abs(entry_price - level) / level < 0.01 for level
    in levels)`. Python's `any` evaluates the generator lazily and raises
    `ZeroDivisionError` at the first zero level it actually reaches;
    `none` models that exception. -/
def nearAny (entry : ℚ) : List ℚ → Option Bool
  | [] => some false
  | l :: ls =>
    if l = 0 then none
    else if |entry - l| / l < 1 / 100 then some true
    else nearAny entry ls

/-- `TradeEvaluator.evaluate_entry_quality`; `none` models the
    `ZeroDivisionError` the Python code raises when the proximity check
    reaches a level equal to zero. -/
def evaluate_entry_quality (trade : Trade) (ctx : MarketContext) :
    Option String :=
  let trendScore : ℤ :=
    if ctx.trend = "bullish" ∧ trade.side = Side.buy then 2
    else if ctx.trend = "bearish" ∧ trade.side = Side.sell then 2
    else if ctx.trend = "neutral" then 1
    else -1
  let near :=
    match trade.side with
    | Side.buy => nearAny trade.entry_price ctx.support_levels
    | Side.sell => nearAny trade.entry_price ctx.resistance_levels
  match near with
  | none => none
  | some b =>
    let score := trendScore + (if b then 2 else 0)
    some (if score ≥ 3 then "good"
      else if score ≥ 1 then "acceptable"
      else "poor")

/-- `TradeEvaluator.calculate_risk_reward`. -/
def calculate_risk_reward (trade : Trade) : Option ℚ :=
  match trade.stop_loss, trade.take_profit with
  | some sl, some tp =>
    let risk :=
      match trade.side with
      | Side.buy => |trade.entry_price - sl|
      | Side.sell => |sl - trade.entry_price|
    let reward :=
      match trade.side with
      | Side.buy => |tp - trade.entry_price|
      | Side.sell => |trade.entry_price - tp|
    if risk = 0 then none else some (reward / risk)
  | _, _ => none

/-- Evaluation record for one trade (`models.TradeEvaluation`). -/
structure TradeEvaluation where
  trade_id : String
  entry_quality : String
  exit_quality : Option String := none
  risk_reward_ratio : Option ℚ := none
  aligned_with_trend : Bool
  execution_discipline : String
  key_observations : List String := []
deriving DecidableEq, Repr

/-- The flat metrics mapping built by
    `TradeReviewSystem._calculate_performance_metrics`. -/
structure PerformanceMetrics where
  total_trades : ℕ
  closed_trades : ℕ
  open_trades : ℕ
  winning_trades : ℕ
  losing_trades : ℕ
  win_rate : ℚ
  total_pnl : ℚ
  avg_pnl : ℚ
  trades_with_trend : ℕ
  trades_against_trend : ℤ
  high_discipline_trades : ℕ
  good_entry_trades : ℕ
deriving DecidableEq, Repr

/-- `TradeReviewSystem._calculate_performance_metrics`. Note the closedness
    test the code actually uses: `t.pnl is not None`. -/
def calculate_performance_metrics (trades : List Trade)
    (evaluations : List TradeEvaluation) : PerformanceMetrics :=
  let closed := trades.filter (fun t => t.pnl.isSome)
  let winning := (closed.filter (fun t => 0 < t.pnl.getD 0)).length
  let losing := (closed.filter (fun t => t.pnl.getD 0 < 0)).length
  let total_pnl := (closed.map (fun t => t.pnl.getD 0)).sum
  let avg_pnl := if closed = [] then 0 else total_pnl / closed.length
  let win_rate : ℚ :=
    if closed = [] then 0 else (winning : ℚ) / closed.length * 100
  let with_trend := (evaluations.filter (fun e => e.aligned_with_trend)).length
  { total_trades := trades.length
    closed_trades := closed.length
    open_trades := trades.length - closed.length
    winning_trades := winning
    losing_trades := losing
    win_rate := win_rate
    total_pnl := total_pnl
    avg_pnl := avg_pnl
    trades_with_trend := with_trend
    trades_against_trend := (trades.length : ℤ) - with_trend
    high_discipline_trades :=
      (evaluations.filter (fun e => e.execution_discipline = "high")).length
    good_entry_trades :=
      (evaluations.filter (fun e => e.entry_quality = "good")).length }

/-- A Python float that is either an ordinary (here: rational) value or
    `float('inf')`. -/
inductive PyFloat where
  | finite (q : ℚ)
  | posInf
deriving DecidableEq, Repr

/-- Result record of `utils.calculate_additional_metrics`. -/
structure AdditionalMetrics where
  max_drawdown : ℚ
  avg_win : ℚ
  avg_loss : ℚ
  profit_factor : PyFloat
  largest_win : ℚ
  largest_loss : ℚ
deriving DecidableEq, Repr

/-- Maximum of the elements of a list (Python `max(l)` for nonempty `l`). -/
def listMax (l : List ℚ) : ℚ := l.foldl max (l.headD 0)

/-- The max-drawdown loop of `utils.calculate_additional_metrics`:
    running cumulative P&L, running peak, running maximal peak-to-trough. -/
def drawdownLoop : List ℚ → ℚ → ℚ → ℚ → ℚ
  | [], _cum, _peak, maxdd => maxdd
  | p :: rest, cum, peak, maxdd =>
    let cum' := cum + p
    let peak' := if cum' > peak then cum' else peak
    let dd := peak' - cum'
    drawdownLoop rest cum' peak' (if dd > maxdd then dd else maxdd)

/-- `utils.calculate_additional_metrics`. -/
def calculate_additional_metrics (trades : List Trade) : AdditionalMetrics :=
  let closed := trades.filter (fun t => t.pnl.isSome)
  if closed = [] then
    { max_drawdown := 0, avg_win := 0, avg_loss := 0
      profit_factor := PyFloat.finite 0, largest_win := 0, largest_loss := 0 }
  else
    let wins := (closed.filter (fun t => 0 < t.pnl.getD 0)).map
      (fun t => t.pnl.getD 0)
    let losses := (closed.filter (fun t => t.pnl.getD 0 < 0)).map
      (fun t => |t.pnl.getD 0|)
    let total_losses := losses.sum
    { max_drawdown := drawdownLoop (closed.map (fun t => t.pnl.getD 0)) 0 0 0
      avg_win := if wins = [] then 0 else wins.sum / wins.length
      avg_loss := if losses = [] then 0 else losses.sum / losses.length
      profit_factor :=
        if total_losses > 0 then PyFloat.finite (wins.sum / total_losses)
        else PyFloat.posInf
      largest_win := if wins = [] then 0 else listMax wins
      largest_loss := if losses = [] then 0 else listMax losses }

/-! ### Spec-side definitions

These follow the words of the specification (not the code); the refinement
theorems below compare them with the embedded functions. -/

/-- Sum of `f i` over `i = 0, ..., n-1`, written as a plain list fold
    (spec-side formulation, independent of the `Finset` sums above). -/
def rangeSum (n : ℕ) (f : ℕ → ℚ) : ℚ := ((List.range n).map f).sum

/-- Spec-side mean of the closes. -/
def specMean (c : List ℚ) : ℚ := c.sum / c.length

/-- Spec-side mean of the indices `0, ..., n-1`. -/
def specXbar (n : ℕ) : ℚ := rangeSum n (fun i => (i : ℚ)) / n

/-- Spec-side OLS slope of close against 0-based index,
    `Σ(xᵢ-x̄)(yᵢ-ȳ) / Σ(xᵢ-x̄)²` with `x̄` the mean of the indices. -/
def specSlope (c : List ℚ) : ℚ :=
  rangeSum c.length
      (fun i => ((i : ℚ) - specXbar c.length) * (c.getD i 0 - specMean c))
    / rangeSum c.length (fun i => ((i : ℚ) - specXbar c.length) ^ 2)

/-- Spec-side residual sum of squares of the closes against the line
    `slope·x + mean(close)` (the spec's stated quirk formula). -/
def specSSres (c : List ℚ) : ℚ :=
  rangeSum c.length (fun i => (c.getD i 0 - (specSlope c * i + specMean c)) ^ 2)

/-- Spec-side total sum of squared deviations of the closes from their mean. -/
def specSStot (c : List ℚ) : ℚ :=
  rangeSum c.length (fun i => (c.getD i 0 - specMean c) ^ 2)

/-- Spec-side trend strength: `max(0, min(1, 1 - SS_res/SS_tot))`. -/
def specStrength (c : List ℚ) : ℚ :=
  max 0 (min 1 (1 - specSSres c / specSStot c))

/-- Spec-side clustering groups: walking the list, the next value joins the
    current cluster when it differs from the cluster's last element by less
    than 1% relative to that element, and starts a new cluster otherwise.
    Since every accepted value immediately becomes the cluster's last
    element, the clusters are the maximal runs of adjacent non-breaking
    pairs, built here by recursion on the list. -/
def specGroups : List ℚ → List (List ℚ)
  | [] => []
  | [x] => [[x]]
  | x :: y :: rest =>
    match specGroups (y :: rest) with
    | [] => [[x]]
    | g :: gs => if |y - x| / x < 1 / 100 then (x :: g) :: gs else [x] :: g :: gs

/-- Spec-side description of `_cluster_levels`: at most `num_levels` levels
    are returned sorted and unclustered; otherwise the greedy clusters of
    the sorted list collapse to their means and the `num_levels` lowest
    means are returned in ascending order. -/
def specClusterLevels (levels : List ℚ) (num_levels : ℕ) : List ℚ :=
  if levels.length ≤ num_levels then sortAsc levels
  else (sortAsc ((specGroups (sortAsc levels)).map qmean)).take num_levels

/-- Helper relating `clusterLoop` to `specGroups`: attach the pending
    cluster `curr` (held in reverse) in front of the groups of the
    unprocessed suffix, merging it with the first group when that group's
    first element does not break from `curr`'s last element. -/
def glue (curr : List ℚ) : List (List ℚ) → List (List ℚ)
  | [] => [curr.reverse]
  | g :: gs =>
    if |g.headD 0 - curr.headD 0| / curr.headD 0 < 1 / 100 then
      (curr.reverse ++ g) :: gs
    else
      curr.reverse :: g :: gs

/-- A trade is closed in the aggregator's sense: realized P&L present. -/
def isClosed (t : Trade) : Bool := t.pnl.isSome

/-- Closed trade with strictly positive realized P&L. -/
def isWin (t : Trade) : Bool := t.pnl.isSome && decide ((0 : ℚ) < t.pnl.getD 0)

/-- Closed trade with strictly negative realized P&L. -/
def isLoss (t : Trade) : Bool := t.pnl.isSome && decide (t.pnl.getD 0 < (0 : ℚ))

/-- Concrete candle whose four prices all equal `p` (used as test data). -/
def flatCandle (t : ℕ) (p : ℚ) : OHLCV :=
  { timestamp := t, open_price := p, high := p, low := p, close := p
    volume := 0 }

/-- Concrete window with strictly increasing closes 1, 2, 3. -/
def risingCandles : List OHLCV :=
  [flatCandle 0 1, flatCandle 1 2, flatCandle 2 3]

/-- Concrete trade with all optional fields absent (used as test data). -/
def mkTrade (s : Side) (entry : ℚ) : Trade :=
  { trade_id := "T", timestamp := 0, symbol := "SYM", side := s
    entry_price := entry, quantity := 1 }

/-- Buy trade entry 100, stop 90, target 100: the reward is zero. -/
def tradeRewardZero : Trade :=
  { mkTrade Side.buy 100 with stop_loss := some 90, take_profit := some 100 }

/-- Buy trade entry 100, stop 90, target 120 (the spec's worked example). -/
def tradeRR2 : Trade :=
  { mkTrade Side.buy 100 with stop_loss := some 90, take_profit := some 120 }

/-- Trade without a stop-loss. -/
def tradeNoStop : Trade :=
  { mkTrade Side.buy 100 with take_profit := some 120 }

/-- Trade whose stop-loss equals the entry price (zero risk). -/
def tradeZeroRisk : Trade :=
  { mkTrade Side.buy 100 with stop_loss := some 100, take_profit := some 120 }

/-- Closed trade with exit price recorded but no realized P&L. -/
def tradeExitNoPnl : Trade :=
  { mkTrade Side.buy 100 with exit_price := some 110 }

/-- Closed winning trade (P&L +50). -/
def tradeWin : Trade := { mkTrade Side.buy 100 with pnl := some 50 }

/-- Closed losing trade (P&L −20). -/
def tradeLoss : Trade := { mkTrade Side.buy 100 with pnl := some (-20) }

/-- Closed break-even trade (P&L 0). -/
def tradeFlat : Trade := { mkTrade Side.buy 100 with pnl := some 0 }

/-- Concrete bullish market context with nonzero levels. -/
def ctxBull : MarketContext :=
  { symbol := "SYM", start_date := 0, end_date := 1, trend := "bullish"
    trend_strength := 0, volatility := 0, support_levels := [100]
    resistance_levels := [110], average_volume := 0 }

/-! ### Arithmetic facts about the regression sums -/

lemma sum_range_id_q (n : ℕ) :
    ∑ i ∈ Finset.range n, (i : ℚ) = n * ((n : ℚ) - 1) / 2 := by
  induction n with
  | zero => simp
  | succ n ih =>
    rw [Finset.sum_range_succ, ih]
    push_cast
    ring

lemma sum_range_sq_q (n : ℕ) :
    ∑ i ∈ Finset.range n, (i : ℚ) ^ 2
      = n * ((n : ℚ) - 1) * (2 * n - 1) / 6 := by
  induction n with
  | zero => simp
  | succ n ih =>
    rw [Finset.sum_range_succ, ih]
    push_cast
    ring

lemma sxx_eq (n : ℕ) :
    sxx n = n * ((n : ℚ) - 1) * ((n : ℚ) + 1) / 12 := by
  unfold sxx xbar
  have expand :
      ∑ i ∈ Finset.range n, ((i : ℚ) - ((n : ℚ) - 1) / 2) ^ 2
        = (∑ i ∈ Finset.range n, (i : ℚ) ^ 2)
          - ((n : ℚ) - 1) * (∑ i ∈ Finset.range n, (i : ℚ))
          + n * (((n : ℚ) - 1) / 2) ^ 2 := by
    rw [Finset.mul_sum, ← Finset.sum_sub_distrib]
    have hc : (n : ℚ) * (((n : ℚ) - 1) / 2) ^ 2
        = ∑ _i ∈ Finset.range n, (((n : ℚ) - 1) / 2) ^ 2 := by
      rw [Finset.sum_const, Finset.card_range, nsmul_eq_mul]
    rw [hc, ← Finset.sum_add_distrib]
    exact Finset.sum_congr rfl fun i _ => by ring
  rw [expand, sum_range_id_q, sum_range_sq_q]
  ring

lemma sum_getD_eq_sum (c : List ℚ) :
    ∑ i ∈ Finset.range c.length, c.getD i 0 = c.sum := by
  induction c with
  | nil => simp
  | cons a t ih =>
    rw [List.length_cons, Finset.sum_range_succ']
    simp only [List.getD_cons_succ, List.getD_cons_zero, List.sum_cons]
    rw [ih]
    ring

lemma sum_dev_zero (c : List ℚ) (h : c.length ≠ 0) :
    ∑ i ∈ Finset.range c.length, (c.getD i 0 - qmean c) = 0 := by
  have hn : ((c.length : ℚ)) ≠ 0 := Nat.cast_ne_zero.mpr h
  rw [Finset.sum_sub_distrib, Finset.sum_const, Finset.card_range,
    nsmul_eq_mul, sum_getD_eq_sum, qmean]
  field_simp

/-- The cross moment against raw (uncentered) indices equals `sxy`:
    centering in x changes nothing because the deviations sum to zero. -/
lemma sum_x_dev_eq_sxy (c : List ℚ) (h : c.length ≠ 0) :
    ∑ i ∈ Finset.range c.length, (i : ℚ) * (c.getD i 0 - qmean c) = sxy c := by
  unfold sxy
  have expand :
      ∑ i ∈ Finset.range c.length,
          ((i : ℚ) - xbar c.length) * (c.getD i 0 - qmean c)
        = (∑ i ∈ Finset.range c.length, (i : ℚ) * (c.getD i 0 - qmean c))
          - xbar c.length
            * ∑ i ∈ Finset.range c.length, (c.getD i 0 - qmean c) := by
    rw [Finset.mul_sum, ← Finset.sum_sub_distrib]
    exact Finset.sum_congr rfl fun i _ => by ring
  rw [expand, sum_dev_zero c h]
  ring

/-- Decomposition of the code's residual sum of squares. -/
lemma ss_res_decomp (c : List ℚ) (h : c.length ≠ 0) :
    ss_res c = ss_tot c - 2 * olsSlope c * sxy c
      + olsSlope c ^ 2 * ∑ i ∈ Finset.range c.length, (i : ℚ) ^ 2 := by
  unfold ss_res ss_tot
  have expand :
      ∑ i ∈ Finset.range c.length,
          (c.getD i 0 - (olsSlope c * i + qmean c)) ^ 2
        = ∑ i ∈ Finset.range c.length,
            ((c.getD i 0 - qmean c) ^ 2
              - 2 * olsSlope c * ((i : ℚ) * (c.getD i 0 - qmean c))
              + olsSlope c ^ 2 * (i : ℚ) ^ 2) :=
    Finset.sum_congr rfl fun i _ => by ring
  rw [expand]
  rw [Finset.sum_add_distrib, Finset.sum_sub_distrib, ← Finset.mul_sum,
    ← Finset.mul_sum, sum_x_dev_eq_sxy c h]

/-- The code's `ss_res` always dominates `ss_tot`: measuring residuals
    against `slope·x + mean(close)` instead of the fitted line adds the
    nonnegative offset `(sxy/sxx)²·n(n-1)(n-2)/6`. -/
lemma ss_tot_le_ss_res (c : List ℚ) (h2 : 2 ≤ c.length) :
    ss_tot c ≤ ss_res c := by
  have hne : c.length ≠ 0 := by omega
  have hn2 : (2 : ℚ) ≤ (c.length : ℚ) := by exact_mod_cast h2
  have hsxx : sxx c.length = c.length * ((c.length : ℚ) - 1)
      * ((c.length : ℚ) + 1) / 12 := sxx_eq c.length
  have hsxxpos : 0 < sxx c.length := by
    rw [hsxx]
    have h0 : (0 : ℚ) < (c.length : ℚ) := by linarith
    have h1 : (0 : ℚ) < (c.length : ℚ) - 1 := by linarith
    have hp : (0 : ℚ) < (c.length : ℚ) + 1 := by linarith
    positivity
  have hslope : olsSlope c = sxy c / sxx c.length := rfl
  have hkey : ss_res c - ss_tot c
      = (sxy c / sxx c.length) ^ 2
        * ((c.length : ℚ) * ((c.length : ℚ) - 1) * ((c.length : ℚ) - 2) / 6) := by
    rw [ss_res_decomp c hne, sum_range_sq_q, hslope]
    have hsxxne : sxx c.length ≠ 0 := ne_of_gt hsxxpos
    field_simp
    rw [hsxx]
    ring
  have hnn : 0 ≤ (sxy c / sxx c.length) ^ 2
      * ((c.length : ℚ) * ((c.length : ℚ) - 1) * ((c.length : ℚ) - 2) / 6) := by
    apply mul_nonneg (sq_nonneg _)
    have h0 : (0 : ℚ) ≤ (c.length : ℚ) := by linarith
    have h1 : (0 : ℚ) ≤ (c.length : ℚ) - 1 := by linarith
    have hp : (0 : ℚ) ≤ (c.length : ℚ) - 2 := by linarith
    positivity
  linarith [hkey ▸ hnn]

/-- `ss_tot` is a sum of squares, hence nonnegative. -/
lemma ss_tot_nonneg (c : List ℚ) : 0 ≤ ss_tot c :=
  Finset.sum_nonneg fun _i _ => sq_nonneg _

/-- The strength component of `calculate_trend` is `0` on every input:
    the modified R² of the code is never positive, so the clamp to `[0,1]`
    always lands on `0`. -/
lemma trendOfCloses_strength_eq_zero (c : List ℚ) :
    (trendOfCloses c).2 = 0 := by
  unfold trendOfCloses
  by_cases hlen : c.length < 2
  · simp [hlen]
  · have h2 : 2 ≤ c.length := by omega
    simp only [hlen, if_false]
    by_cases htot : ss_tot c > 0
    · have hle : ss_res c / ss_tot c ≥ 1 :=
        (one_le_div htot).mpr (ss_tot_le_ss_res c h2)
      have hr : 1 - ss_res c / ss_tot c ≤ 0 := by linarith
      simp only [htot, if_true]
      have hmin : min 1 (1 - ss_res c / ss_tot c) = 1 - ss_res c / ss_tot c :=
        min_eq_right (by linarith)
      rw [hmin]
      exact max_eq_left hr
    · simp [htot]

/-! ### Claim theorems: trend and volatility edge cases -/

/-- **C8.** For every candle window of length less than 2,
    `calculate_trend` returns `("neutral", 0)` and `calculate_volatility`
    returns `0`. -/
theorem trend_volatility_short_window (data : List OHLCV)
    (h : data.length < 2) :
    calculate_trend data = ("neutral", 0) ∧ calculate_volatility data = 0 := by
  constructor
  · have h' : (data.map OHLCV.close).length < 2 := by
      rw [List.length_map]; exact h
    unfold calculate_trend trendOfCloses
    rw [if_pos h']
  · unfold calculate_volatility
    rw [if_pos h]

/-- Witness for C8 at the empty window. -/
theorem trend_volatility_short_window_witness :
    ([] : List OHLCV).length < 2
      ∧ calculate_trend [] = ("neutral", 0) ∧ calculate_volatility [] = 0 :=
  ⟨by decide, trend_volatility_short_window [] (by decide)⟩

/-- **C1 (counterexample).** The window with closes 1, 2, 3 has strictly
    monotonically increasing closes and length ≥ 2, yet `calculate_trend`
    does not return `("bullish", 1)`: the strength is 0. -/
theorem trend_strictInc_strength_one_false :
    List.Chain' (· < ·) (risingCandles.map OHLCV.close)
      ∧ 2 ≤ risingCandles.length
      ∧ calculate_trend risingCandles ≠ ("bullish", 1) := by
  have heval : calculate_trend risingCandles = ("bullish", 0) := by
    norm_num [calculate_trend, risingCandles, flatCandle, trendOfCloses,
      olsSlope, sxy, sxx, xbar, qmean, ss_res, ss_tot, Finset.sum_range_succ]
  refine ⟨?_, ?_, ?_⟩
  · norm_num [risingCandles, flatCandle]
  · norm_num [risingCandles]
  · rw [heval]
    intro hcontra
    have : (0 : ℚ) = 1 := congrArg Prod.snd hcontra
    norm_num at this

/-- **C1 (amended).** For every candle window with strictly monotonically
    increasing closes, length ≥ 2, positive mean close and OLS slope above
    the bullish threshold (0.001 of the mean close), `calculate_trend`
    returns direction bullish with strength exactly 0: the code's modified
    R² (residuals against `slope·x + mean`) is never positive, so the
    clamped strength of a perfect linear fit is 0, not 1. -/
theorem trend_strictInc_bullish_strength_zero (data : List OHLCV)
    (_hmono : List.Chain' (· < ·) (data.map OHLCV.close))
    (h2 : 2 ≤ data.length)
    (hmean : qmean (data.map OHLCV.close) > 0)
    (hslope : olsSlope (data.map OHLCV.close) / qmean (data.map OHLCV.close)
      > 1 / 1000) :
    calculate_trend data = ("bullish", 0) := by
  have hlen : ¬ (data.map OHLCV.close).length < 2 := by
    rw [List.length_map]; omega
  have hsnd : (calculate_trend data).2 = 0 :=
    trendOfCloses_strength_eq_zero _
  have hfst : (calculate_trend data).1 = "bullish" := by
    unfold calculate_trend trendOfCloses
    rw [if_neg hlen]
    simp only
    rw [if_pos hmean, if_pos hslope]
  calc calculate_trend data
      = ((calculate_trend data).1, (calculate_trend data).2) := rfl
    _ = ("bullish", 0) := by rw [hfst, hsnd]

/-- Witness for the amended C1 at the window with closes 1, 2, 3. -/
theorem trend_strictInc_bullish_strength_zero_witness :
    calculate_trend risingCandles = ("bullish", 0) :=
  trend_strictInc_bullish_strength_zero risingCandles
    (by norm_num [risingCandles, flatCandle])
    (by norm_num [risingCandles])
    (by norm_num [risingCandles, flatCandle, qmean])
    (by norm_num [risingCandles, flatCandle, olsSlope, sxy, sxx, xbar,
      qmean, Finset.sum_range_succ])

/-! ### Claim theorems: trend strength refinement -/

lemma rangeSum_eq_finset (n : ℕ) (f : ℕ → ℚ) :
    rangeSum n f = ∑ i ∈ Finset.range n, f i := by
  induction n with
  | zero => simp [rangeSum]
  | succ n ih =>
    rw [rangeSum, List.range_succ, List.map_append, List.sum_append,
      Finset.sum_range_succ, ← rangeSum, ih]
    simp

lemma specMean_eq (c : List ℚ) : specMean c = qmean c := rfl

lemma specXbar_eq (n : ℕ) (h : n ≠ 0) : specXbar n = xbar n := by
  have hn : (n : ℚ) ≠ 0 := Nat.cast_ne_zero.mpr h
  rw [specXbar, rangeSum_eq_finset, sum_range_id_q, xbar]
  field_simp
  ring

lemma specSlope_eq (c : List ℚ) (h : c.length ≠ 0) :
    specSlope c = olsSlope c := by
  unfold specSlope olsSlope sxy sxx
  simp only [rangeSum_eq_finset, specXbar_eq c.length h, specMean_eq]

lemma specSSres_eq (c : List ℚ) (h : c.length ≠ 0) :
    specSSres c = ss_res c := by
  unfold specSSres ss_res
  simp only [rangeSum_eq_finset, specSlope_eq c h, specMean_eq]

lemma specSStot_eq (c : List ℚ) : specSStot c = ss_tot c := by
  unfold specSStot ss_tot
  simp only [rangeSum_eq_finset, specMean_eq]

/-- **C2.** For every window of at least 2 candles with nonzero total
    variance of the closes, the strength returned by `calculate_trend` is
    `max(0, min(1, 1 - SS_res/SS_tot))`, with `SS_res` the squared
    residuals of the closes against the line `slope·x + mean(close)`
    (`slope` the OLS slope against 0-based index, `mean(close)` in place of
    the OLS intercept) and `SS_tot` the squared deviations from the mean. -/
theorem trend_strength_eq_clamped_quirk_r2 (data : List OHLCV)
    (h2 : 2 ≤ data.length)
    (hvar : specSStot (data.map OHLCV.close) ≠ 0) :
    (calculate_trend data).2 = specStrength (data.map OHLCV.close) := by
  have hne : (data.map OHLCV.close).length ≠ 0 := by
    rw [List.length_map]; omega
  have hlen : ¬ (data.map OHLCV.close).length < 2 := by
    rw [List.length_map]; omega
  have htot_eq : specSStot (data.map OHLCV.close)
      = ss_tot (data.map OHLCV.close) := specSStot_eq _
  have hres_eq : specSSres (data.map OHLCV.close)
      = ss_res (data.map OHLCV.close) := specSSres_eq _ hne
  have htot_pos : ss_tot (data.map OHLCV.close) > 0 :=
    lt_of_le_of_ne (ss_tot_nonneg _) (fun hcontra => hvar (by rw [htot_eq, ← hcontra]))
  unfold calculate_trend trendOfCloses specStrength
  rw [if_neg hlen]
  simp only
  rw [if_pos htot_pos, hres_eq, htot_eq]

/-- Witness for C2 at the window with closes 1, 2, 3. -/
theorem trend_strength_eq_clamped_quirk_r2_witness :
    specSStot (risingCandles.map OHLCV.close) ≠ 0
      ∧ (calculate_trend risingCandles).2
          = specStrength (risingCandles.map OHLCV.close) := by
  have hvar : specSStot (risingCandles.map OHLCV.close) ≠ 0 := by
    norm_num [specSStot, rangeSum, specMean, risingCandles, flatCandle,
      List.range_succ]
  exact ⟨hvar, trend_strength_eq_clamped_quirk_r2 risingCandles
    (by norm_num [risingCandles]) hvar⟩

/-! ### Claim theorems: risk-reward -/

/-- **C5 (counterexample).** A buy trade with entry 100, stop 90 and
    target 100 gets a risk-reward value of 0, which is not strictly
    positive. -/
theorem risk_reward_strictly_positive_false :
    calculate_risk_reward tradeRewardZero = some 0 ∧ ¬ ((0 : ℚ) > 0) := by
  constructor
  · norm_num [calculate_risk_reward, tradeRewardZero, mkTrade]
  · norm_num

/-- **C5 (amended).** Whenever `calculate_risk_reward` returns a value,
    that value is nonnegative (it can be 0 when the target equals the
    entry price). -/
theorem risk_reward_nonneg (t : Trade) (v : ℚ)
    (h : calculate_risk_reward t = some v) : 0 ≤ v := by
  unfold calculate_risk_reward at h
  rcases hsl : t.stop_loss with _ | sl <;> rw [hsl] at h
  · exact absurd h (by simp)
  rcases htp : t.take_profit with _ | tp <;> rw [htp] at h
  · exact absurd h (by simp)
  cases hside : t.side <;> rw [hside] at h <;> simp only at h <;>
    split at h
  · exact absurd h (by simp)
  · rw [← Option.some.inj h]
    exact div_nonneg (abs_nonneg _) (abs_nonneg _)
  · exact absurd h (by simp)
  · rw [← Option.some.inj h]
    exact div_nonneg (abs_nonneg _) (abs_nonneg _)

/-- Witness for the amended C5 at the trade entry 100 / stop 90 /
    target 120, whose ratio is 2. -/
theorem risk_reward_nonneg_witness : (0 : ℚ) ≤ 2 :=
  risk_reward_nonneg tradeRR2 2
    (by norm_num [calculate_risk_reward, tradeRR2, mkTrade])

/-- **C6.** `calculate_risk_reward` returns a value iff stop-loss and
    take-profit are both present and the risk `|entry − stop|` is nonzero,
    in which case the value is `|target − entry| / |entry − stop|`. -/
theorem risk_reward_characterization (t : Trade) :
    ((t.stop_loss = none ∨ t.take_profit = none) →
        calculate_risk_reward t = none)
    ∧ (∀ sl tp, t.stop_loss = some sl → t.take_profit = some tp →
        ((|t.entry_price - sl| = 0 → calculate_risk_reward t = none)
        ∧ (|t.entry_price - sl| ≠ 0 →
            calculate_risk_reward t
              = some (|tp - t.entry_price| / |t.entry_price - sl|)))) := by
  constructor
  · intro habs
    unfold calculate_risk_reward
    rcases habs with hs | ht
    · rw [hs]
    · rw [ht]
      rcases t.stop_loss with _ | sl <;> rfl
  · intro sl tp hsl htp
    unfold calculate_risk_reward
    rw [hsl, htp]
    simp only
    cases hside : t.side
    · constructor
      · intro h0
        rw [if_pos h0]
      · intro h0
        rw [if_neg h0]
    · rw [abs_sub_comm sl t.entry_price, abs_sub_comm t.entry_price tp]
      constructor
      · intro h0
        rw [if_pos h0]
      · intro h0
        rw [if_neg h0]

/-- Witness for C6: the spec's worked example (entry 100, stop 90,
    target 120 gives exactly 2), a trade with no stop-loss gives nothing,
    and a zero-risk trade gives nothing. -/
theorem risk_reward_characterization_witness :
    calculate_risk_reward tradeRR2 = some 2
      ∧ calculate_risk_reward tradeNoStop = none
      ∧ calculate_risk_reward tradeZeroRisk = none := by
  refine ⟨?_, ?_, ?_⟩
  · have h := ((risk_reward_characterization tradeRR2).2 90 120 rfl rfl).2
      (by norm_num [tradeRR2, mkTrade])
    rw [h]
    norm_num [tradeRR2, mkTrade]
  · exact (risk_reward_characterization tradeNoStop).1 (Or.inl rfl)
  · exact ((risk_reward_characterization tradeZeroRisk).2 100 120 rfl rfl).1
      (by norm_num [tradeZeroRisk, mkTrade])

/-! ### Claim theorems: performance metrics -/

lemma perf_closed_eq (trades : List Trade) (evals : List TradeEvaluation) :
    (calculate_performance_metrics trades evals).closed_trades
      = trades.countP isClosed := by
  unfold calculate_performance_metrics isClosed
  simp only
  rw [List.countP_eq_length_filter]

lemma perf_open_eq (trades : List Trade) (evals : List TradeEvaluation) :
    (calculate_performance_metrics trades evals).open_trades
      = trades.length - trades.countP isClosed := by
  unfold calculate_performance_metrics isClosed
  simp only
  rw [List.countP_eq_length_filter]

lemma perf_winning_eq (trades : List Trade) (evals : List TradeEvaluation) :
    (calculate_performance_metrics trades evals).winning_trades
      = trades.countP isWin := by
  unfold calculate_performance_metrics
  simp only
  rw [← List.countP_eq_length_filter, List.countP_filter]
  unfold isWin
  congr 1
  funext t
  exact Bool.and_comm _ _

lemma perf_losing_eq (trades : List Trade) (evals : List TradeEvaluation) :
    (calculate_performance_metrics trades evals).losing_trades
      = trades.countP isLoss := by
  unfold calculate_performance_metrics
  simp only
  rw [← List.countP_eq_length_filter, List.countP_filter]
  unfold isLoss
  congr 1
  funext t
  exact Bool.and_comm _ _

lemma perf_win_rate_eq (trades : List Trade) (evals : List TradeEvaluation) :
    (calculate_performance_metrics trades evals).win_rate
      = if trades.countP isClosed = 0 then 0
        else (trades.countP isWin : ℚ) / (trades.countP isClosed) * 100 := by
  unfold calculate_performance_metrics
  simp only
  by_cases h : trades.filter (fun t => t.pnl.isSome) = []
  · rw [if_pos h, if_pos]
    unfold isClosed
    rw [List.countP_eq_length_filter, h]
    rfl
  · have hlen : trades.countP isClosed
        = (trades.filter (fun t => t.pnl.isSome)).length := by
      unfold isClosed
      exact List.countP_eq_length_filter _ _
    rw [if_neg h, if_neg]
    · have hwin : ((trades.filter (fun t => t.pnl.isSome)).filter
          (fun t => decide ((0 : ℚ) < t.pnl.getD 0))).length
          = trades.countP isWin := by
        rw [← List.countP_eq_length_filter, List.countP_filter]
        unfold isWin
        congr 1
        funext t
        exact Bool.and_comm _ _
      rw [hwin, hlen]
    · rw [hlen]
      intro hc
      exact h (List.length_eq_zero.mp hc)

/-- Closed trades partition into wins, losses and break-evens. -/
lemma count_win_loss_breakEven (l : List Trade) :
    l.countP isWin + l.countP isLoss + l.countP (fun t => t.pnl = some 0)
      = l.countP isClosed := by
  induction l with
  | nil => rfl
  | cons t l ih =>
    rcases hp : t.pnl with _ | v
    · simp only [List.countP_cons, isWin, isLoss, isClosed, hp]
      simp
      omega
    · rcases lt_trichotomy v 0 with hv | hv | hv
      · have h1 : ¬ (0 : ℚ) < v := not_lt.mpr hv.le
        have h2 : v ≠ 0 := hv.ne
        simp only [List.countP_cons, isWin, isLoss, isClosed, hp]
        simp [h1, h2, hv]
        omega
      · subst hv
        simp only [List.countP_cons, isWin, isLoss, isClosed, hp]
        simp
        omega
      · have h1 : ¬ v < (0 : ℚ) := not_lt.mpr hv.le
        have h2 : v ≠ 0 := hv.ne.symm
        simp only [List.countP_cons, isWin, isLoss, isClosed, hp]
        simp [h1, h2, hv]
        omega

/-- **C3 (counterexample).** A trade with an exit price but no recorded
    P&L is closed in the data model's sense, yet the aggregator does not
    count it as closed: it tests `pnl is not None`, not the exit price. -/
theorem perf_closed_by_exit_false :
    tradeExitNoPnl.exit_price.isSome = true
      ∧ (calculate_performance_metrics [tradeExitNoPnl] []).closed_trades
          ≠ [tradeExitNoPnl].countP (fun t => t.exit_price.isSome) := by
  constructor
  · rfl
  · decide

/-- **C3 (amended).** The aggregator's closed count is the number of
    trades with realized P&L present (the code's closedness test), open is
    total minus that, and win/loss counts and win rate range over exactly
    those P&L-closed trades. -/
theorem perf_counts_closed_by_pnl (trades : List Trade)
    (evals : List TradeEvaluation) :
    (calculate_performance_metrics trades evals).closed_trades
        = trades.countP isClosed
    ∧ (calculate_performance_metrics trades evals).open_trades
        = trades.length - trades.countP isClosed
    ∧ (calculate_performance_metrics trades evals).winning_trades
        = trades.countP isWin
    ∧ (calculate_performance_metrics trades evals).losing_trades
        = trades.countP isLoss
    ∧ (calculate_performance_metrics trades evals).win_rate
        = (if trades.countP isClosed = 0 then 0
          else (trades.countP isWin : ℚ) / (trades.countP isClosed) * 100) :=
  ⟨perf_closed_eq trades evals, perf_open_eq trades evals,
    perf_winning_eq trades evals, perf_losing_eq trades evals,
    perf_win_rate_eq trades evals⟩

/-- **C9.** Wins plus losses never exceed the closed count; the gap is
    strict exactly when a break-even closed trade (P&L = 0) exists, and
    such trades still sit in the win-rate denominator. -/
theorem perf_win_loss_partition (trades : List Trade)
    (evals : List TradeEvaluation) :
    (calculate_performance_metrics trades evals).winning_trades
          + (calculate_performance_metrics trades evals).losing_trades
        ≤ (calculate_performance_metrics trades evals).closed_trades
    ∧ ((calculate_performance_metrics trades evals).winning_trades
            + (calculate_performance_metrics trades evals).losing_trades
          < (calculate_performance_metrics trades evals).closed_trades
        ↔ ∃ t ∈ trades, t.pnl = some 0)
    ∧ (calculate_performance_metrics trades evals).win_rate
        = (if (calculate_performance_metrics trades evals).closed_trades = 0
            then 0
          else ((calculate_performance_metrics trades evals).winning_trades : ℚ)
            / ((calculate_performance_metrics trades evals).closed_trades)
            * 100) := by
  rw [perf_closed_eq trades evals, perf_winning_eq trades evals,
    perf_losing_eq trades evals, perf_win_rate_eq trades evals]
  have hpart := count_win_loss_breakEven trades
  refine ⟨by omega, ?_, rfl⟩
  have hpos : 0 < trades.countP (fun t => t.pnl = some 0)
      ↔ ∃ t ∈ trades, t.pnl = some 0 := by
    rw [List.countP_pos_iff]
    simp
  constructor
  · intro hlt
    exact hpos.mp (by omega)
  · intro hex
    have := hpos.mpr hex
    omega

/-! ### Claim theorems: additional metrics -/

/-- **C4 (counterexample).** The empty trade list has no closed trade with
    negative P&L, yet the profit factor is the finite 0, not +∞: with no
    closed trades the function returns its all-zero record. -/
theorem profit_factor_no_losses_false :
    (∀ t ∈ ([] : List Trade), ∀ v, t.pnl = some v → 0 ≤ v)
      ∧ (calculate_additional_metrics []).profit_factor ≠ PyFloat.posInf := by
  constructor
  · intro t ht
    simp at ht
  · decide

/-- **C4 (amended).** For every trade list with at least one closed trade
    and no closed trade with negative realized P&L, the profit factor is
    +∞ (`float('inf')`), resolving the zero-denominator as a sentinel
    rather than raising. -/
theorem profit_factor_no_losses_posInf (trades : List Trade)
    (hne : ∃ t ∈ trades, t.pnl.isSome)
    (hnl : ∀ t ∈ trades, ∀ v, t.pnl = some v → 0 ≤ v) :
    (calculate_additional_metrics trades).profit_factor = PyFloat.posInf := by
  unfold calculate_additional_metrics
  have hclosed : trades.filter (fun t => t.pnl.isSome) ≠ [] := by
    rcases hne with ⟨t, ht, hp⟩
    intro hcontra
    have hmem : t ∈ trades.filter (fun t => t.pnl.isSome) :=
      List.mem_filter.mpr ⟨ht, hp⟩
    rw [hcontra] at hmem
    exact (List.not_mem_nil t) hmem
  rw [if_neg hclosed]
  simp only
  have hlosses : (trades.filter (fun t => t.pnl.isSome)).filter
      (fun t => decide (t.pnl.getD 0 < (0 : ℚ))) = [] := by
    rw [List.filter_eq_nil_iff]
    intro t ht
    obtain ⟨htmem, hsome⟩ := List.mem_filter.mp ht
    obtain ⟨v, hv⟩ := Option.isSome_iff_exists.mp (by simpa using hsome)
    have hnn := hnl t htmem v hv
    simp [hv]
    linarith
  rw [hlosses]
  simp

/-- Witness for the amended C4 at a one-trade list with P&L +50. -/
theorem profit_factor_no_losses_posInf_witness :
    (calculate_additional_metrics [tradeWin]).profit_factor
      = PyFloat.posInf :=
  profit_factor_no_losses_posInf [tradeWin]
    ⟨tradeWin, by simp, rfl⟩
    (by
      intro t ht v hv
      rw [List.mem_singleton] at ht
      subst ht
      have h50 : tradeWin.pnl = some 50 := rfl
      rw [h50] at hv
      rw [← Option.some.inj hv]
      norm_num)

/-! ### Claim theorems: entry quality -/

/-- The tiering of an integer score lands on one of the three labels. -/
lemma score_tier_mem (s : ℤ) :
    (if s ≥ 3 then "good" else if s ≥ 1 then "acceptable" else "poor")
        = "good"
    ∨ (if s ≥ 3 then "good" else if s ≥ 1 then "acceptable" else "poor")
        = "acceptable"
    ∨ (if s ≥ 3 then "good" else if s ≥ 1 then "acceptable" else "poor")
        = "poor" := by
  by_cases h3 : s ≥ 3
  · left
    rw [if_pos h3]
  · rw [if_neg h3]
    by_cases h1 : s ≥ 1
    · right
      left
      rw [if_pos h1]
    · right
      right
      rw [if_neg h1]

/-- The proximity scan succeeds whenever every level is nonzero. -/
lemma nearAny_isSome (e : ℚ) (ls : List ℚ) (h : ∀ l ∈ ls, l ≠ 0) :
    (nearAny e ls).isSome := by
  induction ls with
  | nil => rfl
  | cons l ls ih =>
    unfold nearAny
    rw [if_neg (h l (List.mem_cons_self l ls))]
    by_cases hc : |e - l| / l < 1 / 100
    · rw [if_pos hc]
      rfl
    · rw [if_neg hc]
      exact ih fun x hx => h x (List.mem_cons_of_mem _ hx)

/-- **C10.** If every support and resistance level is nonzero,
    `evaluate_entry_quality` returns a value (the `ZeroDivisionError`
    branch of the proximity check is unreachable), and that value is one
    of good, acceptable, poor. -/
theorem entry_quality_total_and_tiered (trade : Trade) (ctx : MarketContext)
    (hs : ∀ l ∈ ctx.support_levels, l ≠ 0)
    (hr : ∀ l ∈ ctx.resistance_levels, l ≠ 0) :
    ∃ q, evaluate_entry_quality trade ctx = some q
      ∧ (q = "good" ∨ q = "acceptable" ∨ q = "poor") := by
  unfold evaluate_entry_quality
  simp only
  have hnear : (match trade.side with
      | Side.buy => nearAny trade.entry_price ctx.support_levels
      | Side.sell => nearAny trade.entry_price ctx.resistance_levels).isSome := by
    cases trade.side
    · exact nearAny_isSome _ _ hs
    · exact nearAny_isSome _ _ hr
  obtain ⟨b, hb⟩ := Option.isSome_iff_exists.mp hnear
  rw [hb]
  exact ⟨_, rfl, score_tier_mem _⟩

/-- Witness for C10 at a buy trade in the bullish context with levels
    100 and 110. -/
theorem entry_quality_total_and_tiered_witness :
    ∃ q, evaluate_entry_quality (mkTrade Side.buy 100) ctxBull = some q
      ∧ (q = "good" ∨ q = "acceptable" ∨ q = "poor") :=
  entry_quality_total_and_tiered (mkTrade Side.buy 100) ctxBull
    (by
      intro l hl
      rw [show ctxBull.support_levels = [100] from rfl] at hl
      rw [List.mem_singleton] at hl
      subst hl
      norm_num)
    (by
      intro l hl
      rw [show ctxBull.resistance_levels = [110] from rfl] at hl
      rw [List.mem_singleton] at hl
      subst hl
      norm_num)

/-! ### Claim theorems: level clustering -/

lemma qmean_reverse (l : List ℚ) : qmean l.reverse = qmean l := by
  unfold qmean
  rw [List.sum_reverse, List.length_reverse]

lemma specGroups_cons_cons (x y : ℚ) (rest : List ℚ) :
    specGroups (x :: y :: rest)
      = match specGroups (y :: rest) with
        | [] => [[x]]
        | g :: gs => if |y - x| / x < 1 / 100 then (x :: g) :: gs
            else [x] :: g :: gs := rfl

lemma specGroups_cons_eq (x y : ℚ) (rest t : List ℚ) (gs : List (List ℚ))
    (h : specGroups (y :: rest) = (y :: t) :: gs) :
    specGroups (x :: y :: rest)
      = if |y - x| / x < 1 / 100 then (x :: y :: t) :: gs
        else [x] :: (y :: t) :: gs := by
  rw [specGroups_cons_cons, h]

lemma clusterLoop_nil (curr acc : List ℚ) :
    clusterLoop [] curr acc = some (acc ++ [qmean curr]) := rfl

lemma clusterLoop_cons (l : ℚ) (rest curr acc : List ℚ) :
    clusterLoop (l :: rest) curr acc
      = if curr.headD 0 = 0 then none
        else if |l - curr.headD 0| / curr.headD 0 < 1 / 100 then
          clusterLoop rest (l :: curr) acc
        else clusterLoop rest [l] (acc ++ [qmean curr]) := rfl

lemma glue_nil (curr : List ℚ) : glue curr [] = [curr.reverse] := rfl

lemma glue_cons (curr g : List ℚ) (gs : List (List ℚ)) :
    glue curr (g :: gs)
      = if |g.headD 0 - curr.headD 0| / curr.headD 0 < 1 / 100 then
          (curr.reverse ++ g) :: gs
        else curr.reverse :: g :: gs := rfl

/-- The first group produced by `specGroups` starts with the list's head. -/
lemma specGroups_head (l : List ℚ) :
    ∀ a : ℚ, ∃ t gs, specGroups (a :: l) = (a :: t) :: gs := by
  induction l with
  | nil =>
    intro a
    exact ⟨[], [], rfl⟩
  | cons y rest ih =>
    intro a
    obtain ⟨t, gs, h⟩ := ih y
    have heq := specGroups_cons_eq a y rest t gs h
    by_cases hc : |y - a| / a < 1 / 100
    · exact ⟨y :: t, gs, by rw [heq, if_pos hc]⟩
    · exact ⟨[], (y :: t) :: gs, by rw [heq, if_neg hc]⟩

/-- One step of the correspondence between the pending cluster of the
    Python loop and the spec-side groups. -/
lemma glue_step (curr : List ℚ) (x : ℚ) (rest : List ℚ) :
    glue curr (specGroups (x :: rest))
      = if |x - curr.headD 0| / curr.headD 0 < 1 / 100 then
          glue (x :: curr) (specGroups rest)
        else
          curr.reverse :: glue [x] (specGroups rest) := by
  cases rest with
  | nil =>
    rw [show specGroups [x] = [[x]] from rfl,
      show specGroups ([] : List ℚ) = [] from rfl, glue_cons]
    simp only [List.headD_cons]
    by_cases hb : |x - curr.headD 0| / curr.headD 0 < 1 / 100
    · rw [if_pos hb, if_pos hb, glue_nil]
      simp
    · rw [if_neg hb, if_neg hb, glue_nil]
      simp
  | cons y rest' =>
    obtain ⟨t, gs, hspec⟩ := specGroups_head rest' y
    rw [specGroups_cons_eq x y rest' t gs hspec, hspec]
    by_cases hxy : |y - x| / x < 1 / 100
    · rw [if_pos hxy]
      by_cases hb : |x - curr.headD 0| / curr.headD 0 < 1 / 100
      · rw [if_pos hb, glue_cons, glue_cons]
        simp only [List.headD_cons]
        rw [if_pos hb, if_pos hxy]
        simp
      · rw [if_neg hb, glue_cons, glue_cons]
        simp only [List.headD_cons]
        rw [if_neg hb, if_pos hxy]
        simp
    · rw [if_neg hxy]
      by_cases hb : |x - curr.headD 0| / curr.headD 0 < 1 / 100
      · rw [if_pos hb, glue_cons, glue_cons]
        simp only [List.headD_cons]
        rw [if_pos hb, if_neg hxy]
        simp
      · rw [if_neg hb, glue_cons, glue_cons]
        simp only [List.headD_cons]
        rw [if_neg hb, if_neg hxy]
        simp

/-- On nonzero data the Python clustering loop never raises and computes
    the means of the spec-side groups, with the pending cluster glued in
    front. -/
lemma clusterLoop_glue :
    ∀ xs curr acc : List ℚ, (∀ l ∈ xs, l ≠ 0) → (∀ l ∈ curr, l ≠ 0) →
      curr ≠ [] →
      clusterLoop xs curr acc
        = some (acc ++ (glue curr (specGroups xs)).map qmean) := by
  intro xs
  induction xs with
  | nil =>
    intro curr acc _ _ _
    rw [clusterLoop_nil, show specGroups [] = [] from rfl, glue_nil]
    simp [qmean_reverse]
  | cons x rest ih =>
    intro curr acc hxs hcurr hne
    have hhead : curr.headD 0 ≠ 0 := by
      cases curr with
      | nil => exact absurd rfl hne
      | cons c cs => exact hcurr c (List.mem_cons_self c cs)
    have hx : x ≠ 0 := hxs x (List.mem_cons_self x rest)
    have hrest : ∀ l ∈ rest, l ≠ 0 :=
      fun l hl => hxs l (List.mem_cons_of_mem _ hl)
    rw [clusterLoop_cons, if_neg hhead, glue_step]
    by_cases hb : |x - curr.headD 0| / curr.headD 0 < 1 / 100
    · rw [if_pos hb, if_pos hb,
        ih (x :: curr) acc hrest ?_ (by simp)]
      intro l hl
      rcases List.mem_cons.mp hl with h | h
      · rw [h]
        exact hx
      · exact hcurr l h
    · rw [if_neg hb, if_neg hb,
        ih [x] (acc ++ [qmean curr]) hrest ?_ (by simp)]
      · simp [qmean_reverse]
      · intro l hl
        rw [List.mem_singleton.mp hl]
        exact hx

/-- Gluing a fresh singleton cluster in front of the remaining groups
    is exactly grouping the whole list. -/
lemma glue_singleton (h : ℚ) (t : List ℚ) :
    glue [h] (specGroups t) = specGroups (h :: t) := by
  cases t with
  | nil => rfl
  | cons y rest =>
    obtain ⟨t', gs, hspec⟩ := specGroups_head rest y
    rw [specGroups_cons_eq h y rest t' gs hspec, hspec, glue_cons]
    simp only [List.headD_cons]
    by_cases hxy : |y - h| / h < 1 / 100
    · rw [if_pos hxy, if_pos hxy]
      simp
    · rw [if_neg hxy, if_neg hxy]
      simp

/-- **C7 (counterexample).** On levels `[0, 5, 6, 7]` with `num_levels`
    3 (more levels than requested), the first merge test divides by the
    current cluster's last element 0, so the Python code raises
    `ZeroDivisionError` instead of returning the clustered means. -/
theorem cluster_levels_total_false :
    ¬ ([0, 5, 6, 7] : List ℚ).length ≤ 3
      ∧ cluster_levels [0, 5, 6, 7] 3 = none := by
  constructor
  · decide
  · decide

/-- **C7 (amended).** On every list of nonzero swing levels,
    `_cluster_levels` returns (never raises) and implements the spec's
    greedy clustering: at most `num_levels` levels come back sorted and
    unclustered; otherwise the sorted list is grouped by the
    1%-to-last-element rule, each group collapses to its mean, and the
    `num_levels` lowest means are returned in ascending order. A level
    equal to 0 can instead make the loop raise `ZeroDivisionError`. -/
theorem cluster_levels_nonzero_eq_spec (levels : List ℚ) (num_levels : ℕ)
    (hz : ∀ l ∈ levels, l ≠ 0) :
    cluster_levels levels num_levels
      = some (specClusterLevels levels num_levels) := by
  unfold cluster_levels specClusterLevels
  by_cases hnil : levels = []
  · subst hnil
    simp [sortAsc]
  · rw [if_neg hnil]
    simp only
    have hlen : (sortAsc levels).length = levels.length :=
      List.length_insertionSort _ _
    have hmem : ∀ l ∈ sortAsc levels, l ≠ 0 := fun l hl =>
      hz l ((List.perm_insertionSort _ levels).mem_iff.mp hl)
    by_cases hle : levels.length ≤ num_levels
    · rw [if_pos (by rw [hlen]; exact hle), if_pos hle]
    · rw [if_neg (by rw [hlen]; exact hle), if_neg hle]
      obtain ⟨h, t, hs⟩ : ∃ h t, sortAsc levels = h :: t := by
        cases hcase : sortAsc levels with
        | nil =>
          exfalso
          rw [hcase] at hlen
          exact hnil (List.length_eq_zero.mp hlen.symm)
        | cons h t => exact ⟨h, t, rfl⟩
      rw [hs]
      simp only
      have hmem' : ∀ l ∈ h :: t, l ≠ 0 := hs ▸ hmem
      rw [clusterLoop_glue t [h] []
          (fun l hl => hmem' l (List.mem_cons_of_mem _ hl))
          (fun l hl => by
            rw [List.mem_singleton.mp hl]
            exact hmem' h (List.mem_cons_self h t))
          (by simp),
        glue_singleton]
      simp

/-- Witness for the amended C7 at the nonzero levels `[1, 2, 10]` with 2
    requested levels. -/
theorem cluster_levels_nonzero_eq_spec_witness :
    cluster_levels [1, 2, 10] 2 = some (specClusterLevels [1, 2, 10] 2) :=
  cluster_levels_nonzero_eq_spec [1, 2, 10] 2 (by decide)

end TradeReview
